import Mathlib

/-!
Verification of the gotify-notify opencode plugin and the pull.sh installer
of the omo-dotfile repository.

Strings are modelled as `List Char` (the plugin only ever manipulates
basic-multilingual-plane characters, so one `Char` corresponds to one JS
UTF-16 code unit).  Network calls are modelled by oracle parameters that
enumerate their possible outcomes; a JS exception is an `Except.error` or a
`threw` flag.
-/

namespace GotifyNotify

/-- The character class matched by the JS regular expression `\s`, which is
also the set trimmed by `String.prototype.trim`. -/
def jsSpaceChars : List Char :=
  [' ', '\t', '\n', '\r', '\x0B', '\x0C',
   Char.ofNat 0xA0, Char.ofNat 0x1680,
   Char.ofNat 0x2000, Char.ofNat 0x2001, Char.ofNat 0x2002, Char.ofNat 0x2003,
   Char.ofNat 0x2004, Char.ofNat 0x2005, Char.ofNat 0x2006, Char.ofNat 0x2007,
   Char.ofNat 0x2008, Char.ofNat 0x2009, Char.ofNat 0x200A,
   Char.ofNat 0x2028, Char.ofNat 0x2029, Char.ofNat 0x202F, Char.ofNat 0x205F,
   Char.ofNat 0x3000, Char.ofNat 0xFEFF]

def isJsSpace (c : Char) : Bool := jsSpaceChars.contains c

/-- Scanner for `s.replace(/\s+/g, " ")`: the flag records whether the
previous character belonged to a whitespace run whose single `' '` has
already been emitted. -/
def collapseWSAux : Bool → List Char → List Char
  | _, [] => []
  | prevWS, c :: cs =>
    if isJsSpace c then
      if prevWS then collapseWSAux true cs
      else ' ' :: collapseWSAux true cs
    else c :: collapseWSAux false cs

/-- `s.replace(/\s+/g, " ")`: every maximal run of whitespace becomes a
single ASCII space. -/
def collapseWS (l : List Char) : List Char := collapseWSAux false l

/-- Leading-whitespace removal, the first half of `String.prototype.trim`. -/
def trimLeft (l : List Char) : List Char := l.dropWhile (fun c => isJsSpace c)

/-- Trailing-whitespace removal, the second half of `String.prototype.trim`. -/
def trimRight (l : List Char) : List Char :=
  (l.reverse.dropWhile (fun c => isJsSpace c)).reverse

/-- `String(s || "").replace(/\s+/g, " ").trim()` from gotify-notify.js
(`normalizeText`). -/
def normalizeText (s : List Char) : List Char := trimRight (trimLeft (collapseWS s))

/-- `t.slice(0, head)` for a non-negative `head`. -/
def jsSliceHead (l : List Char) (head : Nat) : List Char := l.take head

/-- `t.slice(-tail)` for a non-negative JS number `tail`.  When `tail = 0`
the argument is `-0`, which `slice` converts to the start index `0`, so the
whole string is returned; otherwise the last `tail` characters (or the whole
string when `tail` exceeds the length). -/
def jsSliceTail (l : List Char) (tail : Nat) : List Char :=
  if tail = 0 then l else l.drop (l.length - tail)

/-- The horizontal-ellipsis character inserted by `preview`. -/
def ellipsis : Char := '…'

/-- `preview(s, head, tail)` from gotify-notify.js. -/
def preview (s : List Char) (head tail : Nat) : List Char :=
  let t := normalizeText s
  if t = [] then []
  else if t.length ≤ head + tail + 3 then t
  else jsSliceHead t head ++ ellipsis :: jsSliceTail t tail

/-- The markdown special-character set of `escapeMarkdown`
(`Char.ofNat 96` is the backtick, 123 and 125 the curly braces). -/
def escapeSet : List Char :=
  ['\\', Char.ofNat 96, '*', '_', '~',
   '[', ']', '(', ')',
   '#', '+', '-', '.', '!',
   '>', '|', Char.ofNat 123, Char.ofNat 125]

/-- `escapeMarkdown(s)` from gotify-notify.js: the accumulator loop
`out = ""; for (const ch of text) out += escapeSet.has(ch) ? "\\" + ch : ch`. -/
def escapeMarkdown (l : List Char) : List Char :=
  l.foldl (fun out ch =>
    out ++ (if escapeSet.contains ch then ['\\', ch] else [ch])) []

/-- The escape map described by the spec sentence: every special character
is prefixed with a backslash, every other character is kept unchanged, in
order.  Used as the specification side of the C4 refinement. -/
def escapeMarkdownSpec (l : List Char) : List Char :=
  l.flatMap (fun ch => if escapeSet.contains ch then ['\\', ch] else [ch])

/-- `trim()` on both ends, `String.prototype.trim`. -/
def jsTrim (l : List Char) : List Char := trimRight (trimLeft l)

/-- `normalizeBase(url)`: trim, then strip one trailing slash. -/
def normalizeBase (url : List Char) : List Char :=
  let u := jsTrim url
  if u.getLast? = some '/' then u.dropLast else u

/-- A message part as consumed by `extractAssistantText`; `none` in either
field models an absent or non-string JS property. -/
structure MsgPart where
  type : Option (List Char)
  text : Option (List Char)
deriving DecidableEq

/-- The `info` object of a message: `role` and `id`. -/
structure MsgInfo where
  role : Option (List Char)
  id : Option String
deriving DecidableEq

/-- A message returned by `client.session.messages`; a `none` entry in
`parts` models a null element. -/
structure Msg where
  info : Option MsgInfo
  parts : List (Option MsgPart)
deriving DecidableEq

def assistantTag : List Char := "assistant".toList

/-- The filter `p?.type === "text" && typeof p.text === "string"`. -/
def partIsText (p : Option MsgPart) : Bool :=
  match p with
  | some pt => decide (pt.type = some "text".toList) && pt.text.isSome
  | none => false

def partText (p : Option MsgPart) : List Char :=
  match p with
  | some pt => pt.text.getD []
  | none => []

/-- `extractAssistantText(msg)`: join the string texts of the `"text"` parts
and normalize; tolerates a missing message (`msg?.parts || []`). -/
def extractAssistantText (msg : Option Msg) : List Char :=
  normalizeText ((((msg.map Msg.parts).getD []).filter partIsText).flatMap partText)

/-- The backwards scan `for (let i = list.length - 1; ...)` stopping at the
first message whose `info?.role === "assistant"`. -/
def findLatestAssistant (list : List Msg) : Option Msg :=
  list.reverse.find? (fun m =>
    match m.info with
    | some i => decide (i.role = some assistantTag)
    | none => false)

/-- The identifier `last?.info?.id` of the latest assistant message of a
messages payload; `none` when there is no such message or it has no id. -/
def latestAssistantId (data : Option (List Msg)) : Option String :=
  (findLatestAssistant (data.getD [])).bind (fun m => m.info.bind MsgInfo.id)

/-- The normalized text of the latest assistant message of a payload. -/
def latestAssistantText (data : Option (List Msg)) : List Char :=
  extractAssistantText (findLatestAssistant (data.getD []))

/-- Outcome of one `fetch` call: the promise either rejects (network error)
or resolves with a response whose `ok` flag is given.  A non-2xx status is
`response false`; `fetch` does not reject on HTTP error statuses. -/
inductive FetchOutcome
  | netError
  | response (ok : Bool)
deriving DecidableEq

/-- The `GOTIFY_URL` / `GOTIFY_TOKEN_FOR_OPENCODE` environment values. -/
structure GotifyCfg where
  url : List Char
  token : List Char
deriving DecidableEq

/-- `gotifyPush(message)`. `.ok (some m)` means the POST request for `m` was
made and the promise resolved (a non-2xx status is only logged, `res.text()`
rejections are caught); `.ok none` means the call returned without making a
request (missing config or empty message); `.error ()` means the `fetch`
rejected and the exception escapes `gotifyPush`. -/
def gotifyPush (cfg : GotifyCfg) (fr : FetchOutcome) (message : List Char) :
    Except Unit (Option (List Char)) :=
  if normalizeBase cfg.url = [] ∨ jsTrim cfg.token = [] ∨ message = [] then .ok none
  else
    match fr with
    | .netError => .error ()
    | .response _ => .ok (some message)

/-- The value delivered by a handler that awaits `gotifyPush` inside a
try/catch: the pushed message, or `none` when the push threw or made no
request. -/
def pushResult (cfg : GotifyCfg) (fr : FetchOutcome) (message : List Char) :
    Option (List Char) :=
  match gotifyPush cfg fr message with
  | .ok s => s
  | .error _ => none

/-- The parsed `OPENCODE_GOTIFY_NOTIFY_SUMMARIZER` value. -/
structure SummarizerModel where
  providerID : List Char
  modelID : List Char
deriving DecidableEq

/-- `parseSummarizer()`: `null` unless the trimmed env value contains a
slash; the provider is everything before the first slash and the model id
everything after it (`rest.join("/")` restores the later slashes). -/
def parseSummarizer (s : List Char) : Option SummarizerModel :=
  let t := jsTrim s
  if t = [] ∨ ¬ t.contains '/' then none
  else some ⟨t.takeWhile (fun c => c ≠ '/'), (t.dropWhile (fun c => c ≠ '/')).drop 1⟩

/-- Outcome of the `client.session.prompt` call raced against the timeout:
the race rejects with the timeout error, the prompt itself rejects (for
example the server answered with a non-2xx status), or it resolves with
`response?.data`. -/
inductive PromptOutcome
  | timeout
  | thrown
  | ok (data : Option Msg)
deriving DecidableEq

/-- `summarizeWithLLM(client, text, parentID)`.  `model` is the
`parseSummarizer()` result, `created` the outcome of `client.session.create`
(`.error` a rejection, `.ok` carries `session?.data?.id`), `outcome` the
raced prompt.  The input truncation to `MAX_INPUT_LENGTH` and the
`finally` cleanup only shape the outgoing requests, which the oracles
absorb; every rejection is caught, so the function is total and returns
`none` on any failure. -/
def summarizeWithLLM (model : Option SummarizerModel)
    (created : Except Unit (Option String)) (outcome : PromptOutcome) :
    Option (List Char) :=
  match model with
  | none => none
  | some _ =>
    match created with
    | .error _ => none
    | .ok none => none
    | .ok (some _) =>
      match outcome with
      | .timeout => none
      | .thrown => none
      | .ok data =>
        let summary := extractAssistantText data
        if summary = [] ∨ 200 < summary.length then none else some summary

/-- Result of one `sendLatestAssistant` call: the message POSTed to the
gotify endpoint (`none` when no request was made), the updated `lastSent`
map, and whether an exception escaped the call. -/
structure SendOutcome where
  sent : Option (List Char)
  lastSentMap : List (String × String)
  threw : Bool
deriving DecidableEq

def checkMsgHead : List Char := "✅ ".toList

/-- `sendLatestAssistant(sessionID)` over the `lastSent` map `σ`.
`messagesResp` is the `client.session.messages` outcome (`.error` a
rejection that escapes, `.ok` carries `resp?.data`); the summarizer oracles
are as in `summarizeWithLLM`; `cfg`/`fr` drive the final `gotifyPush`. -/
def sendLatestAssistant (σ : List (String × String)) (sessionID : String)
    (messagesResp : Except Unit (Option (List Msg)))
    (model : Option SummarizerModel) (created : Except Unit (Option String))
    (outcome : PromptOutcome)
    (cfg : GotifyCfg) (fr : FetchOutcome) (head tail : Nat) : SendOutcome :=
  match messagesResp with
  | .error _ => ⟨none, σ, true⟩
  | .ok data =>
    let list := data.getD []
    if list = [] then ⟨none, σ, false⟩
    else
      match findLatestAssistant list with
      | none => ⟨none, σ, false⟩
      | some last =>
        match last.info.bind MsgInfo.id with
        | none => ⟨none, σ, false⟩
        | some msgID =>
          if σ.lookup sessionID = some msgID then ⟨none, σ, false⟩
          else
            let text := extractAssistantText (some last)
            let body :=
              match summarizeWithLLM model created outcome with
              | some b => if b = [] then preview text head tail else b
              | none => preview text head tail
            if body = [] then ⟨none, σ, false⟩
            else
              match gotifyPush cfg fr (checkMsgHead ++ escapeMarkdown body) with
              | .error _ => ⟨none, σ, true⟩
              | .ok sent => ⟨sent, (sessionID, msgID) :: σ, false⟩

/-- The `data` object of a `client.session.get` response. -/
structure SessionData where
  parentID : Option (List Char)
deriving DecidableEq

/-- JS truthiness of an optional string (`!!x`): false for a missing value
and for the empty string. -/
def optStrTruthy : Option (List Char) → Bool
  | none => false
  | some s => decide (s ≠ [])

/-- `isChildSession(client, sessionID)`: `!!response?.data?.parentID`, with
any rejection of the lookup caught and mapped to `false`. -/
def isChildSession (resp : Except Unit (Option SessionData)) : Bool :=
  match resp with
  | .error _ => false
  | .ok data =>
    match data with
    | none => false
    | some d => optStrTruthy d.parentID

def subagentDoneMsg : List Char := "✅ Subagent task completed".toList
def sessionErrorMsg : List Char := "❌ Session encountered an error".toList
def permissionMsg : List Char := "🔐 Permission request".toList
def questionMsgHead : List Char := "❓ ".toList

/-- The `session.idle` branch of the `event` handler.  `sessionID` is
`event?.properties?.sessionID`, `sessGet` the `client.session.get` outcome
used by `isChildSession`.  The whole branch body runs inside
`try { ... } catch`, so the result never reports an escaped exception. -/
def sessionIdleHandler (notifySubagent notifyComplete : Bool)
    (σ : List (String × String)) (sessionID : Option String)
    (sessGet : Except Unit (Option SessionData))
    (messagesResp : Except Unit (Option (List Msg)))
    (model : Option SummarizerModel) (created : Except Unit (Option String))
    (outcome : PromptOutcome)
    (cfg : GotifyCfg) (fr : FetchOutcome) (head tail : Nat) : SendOutcome :=
  match sessionID with
  | none => ⟨none, σ, false⟩
  | some sid =>
    let r : SendOutcome :=
      if isChildSession sessGet then
        if notifySubagent then
          match gotifyPush cfg fr subagentDoneMsg with
          | .error _ => ⟨none, σ, true⟩
          | .ok sent => ⟨sent, σ, false⟩
        else ⟨none, σ, false⟩
      else
        if notifyComplete then
          sendLatestAssistant σ sid messagesResp model created outcome cfg fr head tail
        else ⟨none, σ, false⟩
    ⟨r.sent, r.lastSentMap, false⟩

/-- The `session.error` branch of the `event` handler: a bare
`await gotifyPush(...)` with no surrounding try/catch, so a rejected fetch
escapes the handler. -/
def sessionErrorHandler (notifyError : Bool) (cfg : GotifyCfg) (fr : FetchOutcome) :
    Except Unit (Option (List Char)) :=
  if notifyError then gotifyPush cfg fr sessionErrorMsg else .ok none

/-- The `permission.ask` handler: a bare `await gotifyPush(...)`. -/
def permissionAskHandler (notifyPermission : Bool) (cfg : GotifyCfg) (fr : FetchOutcome) :
    Except Unit (Option (List Char)) :=
  if notifyPermission then gotifyPush cfg fr permissionMsg else .ok none

/-- One entry of `output?.args?.questions`. -/
structure Question where
  question : Option (List Char)
  header : Option (List Char)
deriving DecidableEq

/-- JS `a || b` for an optional string `a`: keep `a` if present and
non-empty, otherwise `b`. -/
def jsOrStr (a : Option (List Char)) (b : List Char) : List Char :=
  match a with
  | some s => if s = [] then b else s
  | none => b

/-- The `tool.execute.before` handler: for the `question` tool, push the
escaped preview of the first question's text (falling back to its header,
then to `"Question"`); again a bare `await gotifyPush(...)`. -/
def questionToolHandler (notifyQuestion : Bool) (tool : Option (List Char))
    (questions : Option (List (Option Question)))
    (cfg : GotifyCfg) (fr : FetchOutcome) (head tail : Nat) :
    Except Unit (Option (List Char)) :=
  if tool = some "question".toList ∧ notifyQuestion then
    let firstQuestion : Option Question := ((questions.getD []).head?.getD none)
    let questionText :=
      jsOrStr (firstQuestion.bind Question.question)
        (jsOrStr (firstQuestion.bind Question.header) "Question".toList)
    gotifyPush cfg fr (questionMsgHead ++ escapeMarkdown (preview questionText head tail))
  else .ok none

/-- `true` when an `Except`-modelled handler returned without an exception
escaping to the host. -/
def notThrown : Except Unit (Option (List Char)) → Bool
  | .error _ => false
  | .ok _ => true

end GotifyNotify

namespace PullSh

/-- Which download tool the installer's `fetch` function selected:
`curl -fsSL` when curl is on the PATH, otherwise `wget -qO`. -/
inductive Downloader
  | curl
  | wget
deriving DecidableEq

/-- Environment of one `fetch url out` call: the exit code of the download
command and whether the downloaded file passes the `[[ -s "$out" ]]`
non-empty test. -/
structure FetchEnv where
  dlExit : Nat
  nonempty : Bool
deriving DecidableEq

/-- The script's own diagnostic for an empty or failed download. -/
def emptyDownloadMsg (url : String) : String := "Download failed or empty: " ++ url

/-- `fetch url out` under `set -euo pipefail`.  On success `.ok ()`;
otherwise `.error (code, msgs)` with the nonzero exit code of the script
and the diagnostics printed to stderr.  A failing `curl -fsSL` aborts the
script with curl's exit code after curl itself printed `curlErr` (the `-S`
flag shows errors despite `-s`); a failing `wget -qO` aborts silently
(`-q` suppresses wget's errors and the script prints nothing before
`set -e` kills it); an empty downloaded file triggers the script's own
`echo ... >&2; exit 1`. -/
def fetchStep (dl : Downloader) (fe : FetchEnv) (curlErr : String) (url : String) :
    Except (Nat × List String) Unit :=
  match dl with
  | .curl =>
    if fe.dlExit ≠ 0 then .error (fe.dlExit, [curlErr])
    else if ¬ fe.nonempty then .error (1, [emptyDownloadMsg url])
    else .ok ()
  | .wget =>
    if fe.dlExit ≠ 0 then .error (fe.dlExit, [])
    else if ¬ fe.nonempty then .error (1, [emptyDownloadMsg url])
    else .ok ()

/-- Environment of one whole run of pull.sh: the download tool, the two
fetch outcomes with curl's diagnostics, and the exit codes of the
`mkdir -p`, the two `backup_and_install_jsonc` and the two
`rename_json_if_exists` steps (0 = success; under `set -e` the first
nonzero one aborts the script). -/
structure PullEnv where
  dl : Downloader
  fetch1 : FetchEnv
  fetch2 : FetchEnv
  curl1Err : String
  curl2Err : String
  mkdirExit : Nat
  installExit1 : Nat
  installExit2 : Nat
  renameExit1 : Nat
  renameExit2 : Nat
deriving DecidableEq

/-- The observable result of running pull.sh: its exit code and the failure
diagnostics printed to stderr. -/
def runPull (env : PullEnv) (url1 url2 : String) : Nat × List String :=
  if env.mkdirExit ≠ 0 then (env.mkdirExit, [])
  else
    match fetchStep env.dl env.fetch1 env.curl1Err url1 with
    | .error e => e
    | .ok _ =>
      match fetchStep env.dl env.fetch2 env.curl2Err url2 with
      | .error e => e
      | .ok _ =>
        if env.installExit1 ≠ 0 then (env.installExit1, [])
        else if env.installExit2 ≠ 0 then (env.installExit2, [])
        else if env.renameExit1 ≠ 0 then (env.renameExit1, [])
        else if env.renameExit2 ≠ 0 then (env.renameExit2, [])
        else (0, [])

/-- All steps of one pull.sh run succeeded. -/
def allStepsOk (env : PullEnv) : Prop :=
  env.mkdirExit = 0 ∧ env.fetch1.dlExit = 0 ∧ env.fetch1.nonempty = true ∧
  env.fetch2.dlExit = 0 ∧ env.fetch2.nonempty = true ∧
  env.installExit1 = 0 ∧ env.installExit2 = 0 ∧
  env.renameExit1 = 0 ∧ env.renameExit2 = 0

instance (env : PullEnv) : Decidable (allStepsOk env) := by
  unfold allStepsOk; infer_instance

end PullSh

namespace GotifyNotify

/-- No two adjacent whitespace characters. -/
def wsR (a b : Char) : Prop := ¬(isJsSpace a = true ∧ isJsSpace b = true)

/-- The shape of `normalizeText` output: every whitespace character is a
plain space, no two adjacent whitespace characters, and no leading or
trailing whitespace. -/
def Normalized (l : List Char) : Prop :=
  (∀ c ∈ l, isJsSpace c = true → c = ' ') ∧
  List.Chain' wsR l ∧
  (∀ c, l.head? = some c → isJsSpace c = false) ∧
  (∀ c, l.getLast? = some c → isJsSpace c = false)

theorem collapseWSAux_good (l : List Char) :
    ∀ (b : Bool) (c : Char), c ∈ collapseWSAux b l → isJsSpace c = true → c = ' ' := by
  induction l with
  | nil => intro b c hc; simp [collapseWSAux] at hc
  | cons d ds ih =>
    intro b c hc hws
    by_cases hd : isJsSpace d = true
    · cases b with
      | true =>
        simp only [collapseWSAux, hd, if_pos, if_true] at hc
        exact ih true c hc hws
      | false =>
        simp only [collapseWSAux, hd, if_pos, if_true] at hc
        rcases List.mem_cons.mp hc with h | h
        · exact h
        · exact ih true c h hws
    · simp only [collapseWSAux, hd] at hc
      rcases List.mem_cons.mp hc with h | h
      · subst h; simp [hd] at hws
      · exact ih false c h hws

theorem collapseWSAux_true_head (l : List Char) :
    ∀ c, (collapseWSAux true l).head? = some c → isJsSpace c = false := by
  induction l with
  | nil => intro c hc; simp [collapseWSAux] at hc
  | cons d ds ih =>
    intro c hc
    by_cases hd : isJsSpace d = true
    · simp only [collapseWSAux, hd, if_true] at hc
      exact ih c hc
    · simp only [collapseWSAux, hd, if_false, Bool.false_eq_true, List.head?_cons,
        Option.some.injEq] at hc
      subst hc
      simpa using hd

theorem collapseWSAux_chain (l : List Char) :
    ∀ b : Bool, List.Chain' wsR (collapseWSAux b l) := by
  induction l with
  | nil => intro b; simp [collapseWSAux]
  | cons d ds ih =>
    intro b
    by_cases hd : isJsSpace d = true
    · cases b with
      | true => simpa only [collapseWSAux, hd, if_true] using ih true
      | false =>
        simp only [collapseWSAux, hd, if_true]
        refine List.chain'_cons'.mpr ⟨?_, ih true⟩
        intro y hy
        intro hcon
        exact absurd (collapseWSAux_true_head ds y hy) (by simp [hcon.2])
    · simp only [collapseWSAux, hd]
      refine List.chain'_cons'.mpr ⟨?_, ih false⟩
      intro y _
      intro hcon
      exact hd hcon.1

theorem collapseWSAux_fix (l : List Char) :
    ∀ b : Bool, (∀ c ∈ l, isJsSpace c = true → c = ' ') → List.Chain' wsR l →
    (b = true → ∀ c, l.head? = some c → isJsSpace c = false) →
    collapseWSAux b l = l := by
  induction l with
  | nil => intro b _ _ _; simp [collapseWSAux]
  | cons d ds ih =>
    intro b hgood hchain hhead
    by_cases hd : isJsSpace d = true
    · have hb : b = false := by
        cases b with
        | false => rfl
        | true => exact absurd (hhead rfl d (by simp)) (by simp [hd])
      subst hb
      have hd' : d = ' ' := hgood d (by simp) hd
      have hstep : collapseWSAux false (d :: ds) = ' ' :: collapseWSAux true ds := by
        simp [collapseWSAux, hd]
      have hchain' := List.chain'_cons'.mp hchain
      have htail : collapseWSAux true ds = ds := by
        refine ih true (fun c hc hw => hgood c (List.mem_cons_of_mem _ hc) hw)
          hchain'.2 (fun _ c hc => ?_)
        by_contra hcw
        exact hchain'.1 c hc ⟨hd, by simpa using hcw⟩
      rw [hstep, htail, hd']
    · have hstep : collapseWSAux b (d :: ds) = d :: collapseWSAux false ds := by
        cases b <;> simp [collapseWSAux, hd]
      have hchain' := List.chain'_cons'.mp hchain
      rw [hstep, ih false (fun c hc hw => hgood c (List.mem_cons_of_mem _ hc) hw)
        hchain'.2 (by intro h; cases h)]

theorem head?_dropWhile (p : Char → Bool) (l : List Char) :
    ∀ c, (l.dropWhile p).head? = some c → p c = false := by
  induction l with
  | nil => intro c hc; simp at hc
  | cons d ds ih =>
    intro c hc
    by_cases hd : p d
    · rw [List.dropWhile_cons_of_pos hd] at hc
      exact ih c hc
    · rw [List.dropWhile_cons_of_neg hd] at hc
      simp only [List.head?_cons, Option.some.injEq] at hc
      subst hc
      simpa using hd

theorem getLast?_dropWhile_of_ne_nil (p : Char → Bool) (l : List Char)
    (h : l.dropWhile p ≠ []) : (l.dropWhile p).getLast? = l.getLast? := by
  obtain ⟨t, ht⟩ := List.dropWhile_suffix (l := l) p
  conv_rhs => rw [← ht]
  rw [List.getLast?_append]
  cases hg : (l.dropWhile p).getLast? with
  | none => exact absurd (List.getLast?_eq_none_iff.mp hg) h
  | some c => rfl

theorem normalizeText_normalized (l : List Char) : Normalized (normalizeText l) := by
  have good_m : ∀ c ∈ collapseWS l, isJsSpace c = true → c = ' ' :=
    fun c => collapseWSAux_good l false c
  have chain_m : List.Chain' wsR (collapseWS l) := collapseWSAux_chain l false
  set t1 := (collapseWS l).dropWhile (fun c => isJsSpace c) with ht1
  have good_t1 : ∀ c ∈ t1, isJsSpace c = true → c = ' ' :=
    fun c hc => good_m c (List.dropWhile_subset _ hc)
  have chain_t1 : List.Chain' wsR t1 := chain_m.suffix (List.dropWhile_suffix _)
  have head_t1 : ∀ c, t1.head? = some c → isJsSpace c = false := head?_dropWhile _ _
  set d := t1.reverse.dropWhile (fun c => isJsSpace c) with hdd
  have chain_rev : List.Chain' (flip wsR) t1.reverse := List.chain'_reverse.mpr chain_t1
  have chain_d : List.Chain' (flip wsR) d := chain_rev.suffix (List.dropWhile_suffix _)
  have chain_t2 : List.Chain' wsR d.reverse := List.chain'_reverse.mpr chain_d
  have hnt : normalizeText l = d.reverse := rfl
  rw [hnt]
  refine ⟨?_, chain_t2, ?_, ?_⟩
  · intro c hc hw
    have h1 : c ∈ d := List.mem_reverse.mp hc
    have h2 : c ∈ t1.reverse := List.dropWhile_subset _ h1
    exact good_t1 c (List.mem_reverse.mp h2) hw
  · intro c hc
    rw [List.head?_reverse] at hc
    have hdne : d ≠ [] := by
      intro hnil
      rw [hnil] at hc
      simp at hc
    rw [hdd, getLast?_dropWhile_of_ne_nil _ _ (hdd ▸ hdne), List.getLast?_reverse] at hc
    exact head_t1 c hc
  · intro c hc
    rw [List.getLast?_reverse] at hc
    exact head?_dropWhile _ _ c hc

theorem normalizeText_fix (l : List Char) (h : Normalized l) : normalizeText l = l := by
  obtain ⟨good, chain, hhead, hlast⟩ := h
  have h1 : collapseWS l = l := collapseWSAux_fix l false good chain (by intro hb; cases hb)
  have h2 : trimLeft l = l := by
    unfold trimLeft
    cases l with
    | nil => rfl
    | cons c cs =>
      have hc := hhead c rfl
      rw [List.dropWhile_cons_of_neg (by simp [hc])]
  have h3 : trimRight l = l := by
    unfold trimRight
    have hrev : l.reverse.dropWhile (fun c => isJsSpace c) = l.reverse := by
      cases hr : l.reverse with
      | nil => rfl
      | cons c cs =>
        have hcl : l.getLast? = some c := by rw [← List.head?_reverse, hr]; rfl
        have hc := hlast c hcl
        rw [List.dropWhile_cons_of_neg (by simp [hc])]
    rw [hrev, List.reverse_reverse]
  unfold normalizeText
  rw [h1, h2, h3]

theorem normalizeText_idem (l : List Char) :
    normalizeText (normalizeText l) = normalizeText l :=
  normalizeText_fix _ (normalizeText_normalized l)

theorem getLast?_of_suffix_ne_nil {l m : List Char} (h : m <:+ l) (hm : m ≠ []) :
    m.getLast? = l.getLast? := by
  obtain ⟨t, ht⟩ := h
  rw [← ht, List.getLast?_append]
  cases hg : m.getLast? with
  | none => exact absurd (List.getLast?_eq_none_iff.mp hg) hm
  | some c => rfl

theorem head?_take_of_pos {l : List Char} {n : Nat} (hn : 1 ≤ n) :
    (l.take n).head? = l.head? := by
  cases l with
  | nil => simp
  | cons c cs =>
    cases n with
    | zero => omega
    | succ k => rfl

theorem isJsSpace_ellipsis : isJsSpace ellipsis = false := by decide

theorem preview_eq_self {t : List Char} (h : Normalized t) (head tail : Nat)
    (hle : t.length ≤ head + tail + 3) : preview t head tail = t := by
  have hfix := normalizeText_fix t h
  by_cases h0 : t = []
  · subst h0
    simp [preview, hfix]
  · simp only [preview, hfix]
    rw [if_neg h0, if_pos hle]

theorem normalized_nil : Normalized ([] : List Char) := by
  refine ⟨?_, ?_, ?_, ?_⟩ <;> simp

theorem normalized_truncation {t : List Char} {head tail : Nat} (h : Normalized t)
    (hlen : head + tail + 3 < t.length) (hh : 1 ≤ head) (htl : 1 ≤ tail) :
    Normalized (t.take head ++ ellipsis :: t.drop (t.length - tail)) := by
  obtain ⟨good, chain, hhead, hlast⟩ := h
  have htne : t ≠ [] := by
    intro h0
    rw [h0] at hlen
    simp at hlen
  have hdropne : t.drop (t.length - tail) ≠ [] := by
    have : (t.drop (t.length - tail)).length = tail := by
      rw [List.length_drop]
      omega
    intro h0
    rw [h0] at this
    simp at this
    omega
  refine ⟨?_, ?_, ?_, ?_⟩
  · intro c hc hw
    rcases List.mem_append.mp hc with h1 | h1
    · exact good c (List.take_subset _ _ h1) hw
    · rcases List.mem_cons.mp h1 with h2 | h2
      · subst h2
        rw [isJsSpace_ellipsis] at hw
        cases hw
      · exact good c (List.drop_subset _ _ h2) hw
  · refine List.chain'_append.mpr ⟨chain.take _, ?_, ?_⟩
    · refine List.chain'_cons'.mpr ⟨?_, chain.drop _⟩
      intro y _
      intro hcon
      rw [isJsSpace_ellipsis] at hcon
      cases hcon.1
    · intro x _ y hy
      simp only [List.head?_cons, Option.mem_def, Option.some.injEq] at hy
      subst hy
      intro hcon
      rw [isJsSpace_ellipsis] at hcon
      cases hcon.2
  · intro c hc
    rw [List.head?_append] at hc
    have htake : (t.take head).head? = t.head? := head?_take_of_pos hh
    cases hht : t.head? with
    | none => exact absurd (List.head?_eq_none_iff.mp hht) htne
    | some c0 =>
      rw [htake, hht] at hc
      simp only [Option.or_some, Option.some.injEq] at hc
      subst hc
      exact hhead c0 hht
  · intro c hc
    rw [List.getLast?_append] at hc
    have hcons : (ellipsis :: t.drop (t.length - tail)).getLast? =
        (t.drop (t.length - tail)).getLast? := by
      cases hdl : t.drop (t.length - tail) with
      | nil => exact absurd hdl hdropne
      | cons a as => exact List.getLast?_cons_cons
    have hdrop : (t.drop (t.length - tail)).getLast? = t.getLast? :=
      getLast?_of_suffix_ne_nil (List.drop_suffix _ _) hdropne
    rw [hcons, hdrop] at hc
    cases hlt : t.getLast? with
    | none =>
      rw [hlt] at hc
      simp only [Option.none_or] at hc
      have : t = [] := List.getLast?_eq_none_iff.mp hlt
      exact absurd this htne
    | some c0 =>
      rw [hlt] at hc
      simp only [Option.or_some, Option.some.injEq] at hc
      subst hc
      exact hlast c0 hlt

theorem preview_nil_of_le {s : List Char} {head tail : Nat}
    (hle : (normalizeText s).length ≤ head + tail + 3) :
    preview s head tail = normalizeText s := by
  by_cases h0 : normalizeText s = []
  · simp [preview, h0]
  · simp only [preview]
    rw [if_neg h0, if_pos hle]

theorem preview_truncation_shape {s : List Char} {head tail : Nat}
    (htl : tail ≠ 0) (hlen : head + tail + 3 < (normalizeText s).length) :
    preview s head tail =
      (normalizeText s).take head ++
        ellipsis :: (normalizeText s).drop ((normalizeText s).length - tail) := by
  have h0 : normalizeText s ≠ [] := by
    intro h
    rw [h] at hlen
    simp at hlen
  simp only [preview]
  rw [if_neg h0, if_neg (by omega), jsSliceHead, jsSliceTail, if_neg htl]

theorem foldl_append_eq_flatMap (f : Char → List Char) :
    ∀ (l acc : List Char),
      l.foldl (fun out ch => out ++ f ch) acc = acc ++ l.flatMap f := by
  intro l
  induction l with
  | nil => intro acc; simp
  | cons c cs ih =>
    intro acc
    simp only [List.foldl_cons, List.flatMap_cons, ih, List.append_assoc]

/-- C2 (corrected): for every input whose whitespace-normalized form is
longer than head+tail+3 characters and every `tail ≥ 1`, `preview`
returns the first `head` normalized characters, one ellipsis, and the
last `tail` normalized characters — exactly `head + 1 + tail` characters.
(The restriction `tail ≥ 1` is forced: JS `slice(-0)` is `slice(0)`, see
`preview_tail_zero_counterexample`.) -/
theorem preview_truncates_exact (s : List Char) (head tail : Nat)
    (htl : 1 ≤ tail) (hlen : head + tail + 3 < (normalizeText s).length) :
    preview s head tail =
      (normalizeText s).take head ++
        ellipsis :: (normalizeText s).drop ((normalizeText s).length - tail) ∧
    (preview s head tail).length = head + 1 + tail := by
  have hshape := preview_truncation_shape (by omega) hlen
  refine ⟨hshape, ?_⟩
  rw [hshape, List.length_append, List.length_cons, List.length_take, List.length_drop]
  omega

/-- C2 counterexample: with `tail = 0` (and `head = 1`) the normalized
input `"abcdef"` is longer than head+tail+3, yet the preview has 8
characters, not head + 1 + tail = 2, because `t.slice(-0)` returns the
whole string. -/
theorem preview_tail_zero_counterexample :
    1 + 0 + 3 < (normalizeText "abcdef".toList).length ∧
    (preview "abcdef".toList 1 0).length ≠ 1 + 1 + 0 := by decide

/-- C2 witness: at head = tail = 1 on the ten-character input
`"abcdefghij"` the preview has exactly 1 + 1 + 1 characters. -/
theorem preview_truncates_exact_witness :
    1 + 1 + 3 < (normalizeText "abcdefghij".toList).length ∧
    (preview "abcdefghij".toList 1 1).length = 1 + 1 + 1 :=
  ⟨by decide, (preview_truncates_exact "abcdefghij".toList 1 1 (by decide) (by decide)).2⟩

/-- C5: for every input whose whitespace-normalized form has length at most
head+tail+3, `preview` returns the whitespace-normalized input unchanged. -/
theorem preview_short_identity (s : List Char) (head tail : Nat)
    (hle : (normalizeText s).length ≤ head + tail + 3) :
    preview s head tail = normalizeText s :=
  preview_nil_of_le hle

/-- C5 witness: `"ab   cd"` normalizes to 5 characters, within the
2+2+3 bound, and the preview is exactly the normalized input. -/
theorem preview_short_identity_witness :
    (normalizeText "ab   cd".toList).length ≤ 2 + 2 + 3 ∧
    preview "ab   cd".toList 2 2 = normalizeText "ab   cd".toList :=
  ⟨by decide, preview_short_identity "ab   cd".toList 2 2 (by decide)⟩

/-- C4: `escapeMarkdown` prefixes a backslash to every occurrence of a
character of the special set and outputs every other character unchanged,
preserving order — it coincides with the character-by-character map
`escapeMarkdownSpec` written from the spec sentence. -/
theorem escapeMarkdown_meets_spec :
    ∀ l : List Char, escapeMarkdown l = escapeMarkdownSpec l := by
  intro l
  unfold escapeMarkdown escapeMarkdownSpec
  rw [foldl_append_eq_flatMap]
  simp

/-- C9: `preview` is idempotent for `head ≥ 1` and `tail ≥ 1`: its output
is already whitespace-normalized and no longer than head+tail+3, so a
second application returns it unchanged. -/
theorem preview_idempotent (s : List Char) (head tail : Nat)
    (hh : 1 ≤ head) (htl : 1 ≤ tail) :
    preview (preview s head tail) head tail = preview s head tail := by
  have hN : Normalized (normalizeText s) := normalizeText_normalized s
  by_cases hle : (normalizeText s).length ≤ head + tail + 3
  · rw [preview_nil_of_le hle]
    exact preview_eq_self hN head tail hle
  · push_neg at hle
    rw [preview_truncation_shape (by omega) hle]
    have hNr := normalized_truncation hN hle hh htl
    refine preview_eq_self hNr head tail ?_
    rw [List.length_append, List.length_cons, List.length_take, List.length_drop]
    omega

theorem sendLatestAssistant_cases (σ : List (String × String)) (sid : String)
    (d : Option (List Msg)) (model : Option SummarizerModel)
    (created : Except Unit (Option String)) (outcome : PromptOutcome)
    (cfg : GotifyCfg) (fr : FetchOutcome) (head tail : Nat) :
    (sendLatestAssistant σ sid (.ok d) model created outcome cfg fr head tail =
        ⟨none, σ, false⟩ ∨
      sendLatestAssistant σ sid (.ok d) model created outcome cfg fr head tail =
        ⟨none, σ, true⟩) ∨
    (∃ msgID sent,
      latestAssistantId d = some msgID ∧ σ.lookup sid ≠ some msgID ∧
      sendLatestAssistant σ sid (.ok d) model created outcome cfg fr head tail =
        ⟨sent, (sid, msgID) :: σ, false⟩) := by
  simp only [sendLatestAssistant]
  split
  next hl => exact Or.inl (Or.inl rfl)
  next hl =>
    split
    next hf => exact Or.inl (Or.inl rfl)
    next last hf =>
      split
      next hid => exact Or.inl (Or.inl rfl)
      next msgID hid =>
        split
        next hlk => exact Or.inl (Or.inl rfl)
        next hlk =>
          split
          next hb => exact Or.inl (Or.inl rfl)
          next hb =>
            split
            next e hp => exact Or.inl (Or.inr rfl)
            next sent hp =>
              right
              refine ⟨msgID, sent, ?_, hlk, rfl⟩
              simp [latestAssistantId, hf, hid]

/-- C1: once a notification has been pushed for the latest assistant
message identifier of a session, a second `sendLatestAssistant` call for
that session whose latest assistant message has the same identifier sends
no notification: the successful first call records the identifier in the
`lastSent` map, and the second call returns before pushing. -/
theorem sendLatestAssistant_suppresses_duplicate
    (σ : List (String × String)) (sid : String) (d₁ d₂ : Option (List Msg))
    (msgID : String)
    (model₁ model₂ : Option SummarizerModel)
    (created₁ created₂ : Except Unit (Option String))
    (outcome₁ outcome₂ : PromptOutcome) (cfg₁ cfg₂ : GotifyCfg)
    (fr₁ fr₂ : FetchOutcome) (head tail : Nat)
    (h₁ : latestAssistantId d₁ = some msgID)
    (h₂ : latestAssistantId d₂ = some msgID)
    (hsent : (sendLatestAssistant σ sid (.ok d₁) model₁ created₁ outcome₁
        cfg₁ fr₁ head tail).sent ≠ none) :
    (sendLatestAssistant
      (sendLatestAssistant σ sid (.ok d₁) model₁ created₁ outcome₁
        cfg₁ fr₁ head tail).lastSentMap
      sid (.ok d₂) model₂ created₂ outcome₂ cfg₂ fr₂ head tail).sent = none := by
  rcases sendLatestAssistant_cases σ sid d₁ model₁ created₁ outcome₁ cfg₁ fr₁ head tail with
    (hc | hc) | ⟨m, sent, hm, hlk, hc⟩
  · rw [hc] at hsent; exact absurd rfl hsent
  · rw [hc] at hsent; exact absurd rfl hsent
  · have hmm : m = msgID := by
      rw [hm] at h₁
      exact Option.some.inj h₁
    subst hmm
    rw [hc]
    show (sendLatestAssistant ((sid, m) :: σ) sid (.ok d₂) model₂ created₂ outcome₂
      cfg₂ fr₂ head tail).sent = none
    obtain ⟨last₂, hf₂, hid₂⟩ :
        ∃ last₂, findLatestAssistant (d₂.getD []) = some last₂ ∧
          last₂.info.bind MsgInfo.id = some m := by
      unfold latestAssistantId at h₂
      cases hf : findLatestAssistant (d₂.getD []) with
      | none => rw [hf] at h₂; simp at h₂
      | some l =>
        rw [hf] at h₂
        exact ⟨l, rfl, by simpa using h₂⟩
    have hl₂ : d₂.getD [] ≠ [] := by
      intro h0
      rw [h0] at hf₂
      simp [findLatestAssistant] at hf₂
    simp only [sendLatestAssistant]
    rw [if_neg hl₂]
    simp only [hf₂, hid₂]
    rw [if_pos List.lookup_cons_self]

/-- C1 witness: a concrete two-call run over one assistant message with
identifier "m1"; the first call pushes, the second does not. -/
theorem sendLatestAssistant_suppresses_duplicate_witness :
    latestAssistantId
        (some [⟨some ⟨some "assistant".toList, some "m1"⟩,
          [some ⟨some "text".toList, some "hi".toList⟩]⟩]) = some "m1" ∧
    (sendLatestAssistant [] "s"
        (.ok (some [⟨some ⟨some "assistant".toList, some "m1"⟩,
          [some ⟨some "text".toList, some "hi".toList⟩]⟩]))
        none (.ok none) .timeout ⟨"http://g".toList, "tok".toList⟩
        (.response true) 2 2).sent ≠ none ∧
    (sendLatestAssistant
      (sendLatestAssistant [] "s"
        (.ok (some [⟨some ⟨some "assistant".toList, some "m1"⟩,
          [some ⟨some "text".toList, some "hi".toList⟩]⟩]))
        none (.ok none) .timeout ⟨"http://g".toList, "tok".toList⟩
        (.response true) 2 2).lastSentMap
      "s"
      (.ok (some [⟨some ⟨some "assistant".toList, some "m1"⟩,
        [some ⟨some "text".toList, some "hi".toList⟩]⟩]))
      none (.ok none) .timeout ⟨"http://g".toList, "tok".toList⟩
      (.response true) 2 2).sent = none :=
  ⟨by decide, by decide,
    sendLatestAssistant_suppresses_duplicate [] "s" _ _ "m1" none none
      (.ok none) (.ok none) .timeout .timeout
      ⟨"http://g".toList, "tok".toList⟩ ⟨"http://g".toList, "tok".toList⟩
      (.response true) (.response true) 2 2
      (by decide) (by decide) (by decide)⟩

theorem gotifyPush_ok_shape (cfg : GotifyCfg) (fr : FetchOutcome) (m : List Char)
    (s : Option (List Char)) (hp : gotifyPush cfg fr m = .ok s) :
    s = none ∨ s = some m := by
  unfold gotifyPush at hp
  split at hp
  · left
    injection hp with h
    exact h.symm
  · cases fr with
    | netError => simp at hp
    | response ok =>
      right
      injection hp with h
      exact h.symm

/-- C3: if the summarizer prompt times out, is rejected (for example the
server answered with a non-2xx status), or resolves with a malformed
payload (no extractable text, or text longer than 200 characters), then
`summarizeWithLLM` evaluates to `none` — the catch-all try/catch is
embedded as a total function, so no exception escapes — and any
notification pushed by `sendLatestAssistant` uses the preview of the
assistant text as its body. -/
theorem summarizer_failure_falls_back
    (model : Option SummarizerModel) (created : Except Unit (Option String))
    (outcome : PromptOutcome)
    (hfail : outcome = .timeout ∨ outcome = .thrown ∨
      (∃ data, outcome = .ok data ∧
        (extractAssistantText data = [] ∨ 200 < (extractAssistantText data).length))) :
    summarizeWithLLM model created outcome = none ∧
    ∀ (σ : List (String × String)) (sid : String) (d : Option (List Msg))
      (cfg : GotifyCfg) (fr : FetchOutcome) (head tail : Nat),
      (sendLatestAssistant σ sid (.ok d) model created outcome cfg fr head tail).sent = none ∨
      (sendLatestAssistant σ sid (.ok d) model created outcome cfg fr head tail).sent =
        some (checkMsgHead ++ escapeMarkdown (preview (latestAssistantText d) head tail)) := by
  have hnone : summarizeWithLLM model created outcome = none := by
    cases model with
    | none => rfl
    | some m =>
      cases created with
      | error e => rfl
      | ok oid =>
        cases oid with
        | none => rfl
        | some idv =>
          rcases hfail with h | h | ⟨data, ho, hmal⟩
          · subst h; rfl
          · subst h; rfl
          · subst ho
            simp only [summarizeWithLLM]
            rw [if_pos hmal]
  refine ⟨hnone, ?_⟩
  intro σ sid d cfg fr head tail
  simp only [sendLatestAssistant]
  split
  next => exact Or.inl rfl
  next hl =>
    split
    next => exact Or.inl rfl
    next last hf =>
      split
      next => exact Or.inl rfl
      next msgID hid =>
        split
        next => exact Or.inl rfl
        next hlk =>
          split
          next => exact Or.inl rfl
          next hb =>
            split
            next e hp => exact Or.inl rfl
            next sent hp =>
              rcases gotifyPush_ok_shape cfg fr _ sent hp with h | h
              · exact Or.inl (by simp [h])
              · right
                simp only [h, hnone, latestAssistantText, hf]

/-- C3 witness: a timed-out summarizer call yields `none` and the pushed
notification is the escaped preview of the assistant text. -/
theorem summarizer_failure_falls_back_witness :
    summarizeWithLLM (some ⟨"p".toList, "m".toList⟩) (.ok (some "sess")) .timeout = none ∧
    ((sendLatestAssistant [] "s"
        (.ok (some [⟨some ⟨some "assistant".toList, some "m2"⟩,
          [some ⟨some "text".toList, some "hello there".toList⟩]⟩]))
        (some ⟨"p".toList, "m".toList⟩) (.ok (some "sess")) .timeout
        ⟨"http://g".toList, "tok".toList⟩ (.response true) 2 2).sent = none ∨
      (sendLatestAssistant [] "s"
        (.ok (some [⟨some ⟨some "assistant".toList, some "m2"⟩,
          [some ⟨some "text".toList, some "hello there".toList⟩]⟩]))
        (some ⟨"p".toList, "m".toList⟩) (.ok (some "sess")) .timeout
        ⟨"http://g".toList, "tok".toList⟩ (.response true) 2 2).sent =
        some (checkMsgHead ++ escapeMarkdown (preview
          (latestAssistantText
            (some [⟨some ⟨some "assistant".toList, some "m2"⟩,
              [some ⟨some "text".toList, some "hello there".toList⟩]⟩])) 2 2))) :=
  ⟨(summarizer_failure_falls_back (some ⟨"p".toList, "m".toList⟩)
      (.ok (some "sess")) .timeout (Or.inl rfl)).1,
    (summarizer_failure_falls_back (some ⟨"p".toList, "m".toList⟩)
      (.ok (some "sess")) .timeout (Or.inl rfl)).2 [] "s" _
      ⟨"http://g".toList, "tok".toList⟩ (.response true) 2 2⟩

theorem gotifyPush_response_notThrown (cfg : GotifyCfg) (m : List Char) (ok : Bool) :
    notThrown (gotifyPush cfg (.response ok) m) = true := by
  unfold gotifyPush
  split
  · rfl
  · rfl

/-- C6 (corrected): summarization failures never escape any handler, the
`session.idle` handler swallows every failure of the notification flow
(its whole body runs in a try/catch), and a resolved notification response
— including a non-2xx status — never raises in any handler.  A rejected
`fetch` (network error) in the `session.error`, `permission.ask` and
`tool.execute.before` handlers does escape, see
`permissionAsk_netError_counterexample`. -/
theorem handlers_swallow_failures :
    (∀ (ns nc : Bool) (σ : List (String × String)) (sid : Option String)
      (sessGet : Except Unit (Option SessionData))
      (messagesResp : Except Unit (Option (List Msg)))
      (model : Option SummarizerModel) (created : Except Unit (Option String))
      (outcome : PromptOutcome) (cfg : GotifyCfg) (fr : FetchOutcome) (head tail : Nat),
      (sessionIdleHandler ns nc σ sid sessGet messagesResp model created outcome
        cfg fr head tail).threw = false) ∧
    (∀ (ne : Bool) (cfg : GotifyCfg) (ok : Bool),
      notThrown (sessionErrorHandler ne cfg (.response ok)) = true) ∧
    (∀ (np : Bool) (cfg : GotifyCfg) (ok : Bool),
      notThrown (permissionAskHandler np cfg (.response ok)) = true) ∧
    (∀ (nq : Bool) (tool : Option (List Char))
      (questions : Option (List (Option Question))) (cfg : GotifyCfg) (ok : Bool)
      (head tail : Nat),
      notThrown (questionToolHandler nq tool questions cfg (.response ok) head tail) = true) := by
  refine ⟨?_, ?_, ?_, ?_⟩
  · intro ns nc σ sid sessGet messagesResp model created outcome cfg fr head tail
    cases sid with
    | none => rfl
    | some s => rfl
  · intro ne cfg ok
    cases ne
    · rfl
    · exact gotifyPush_response_notThrown cfg sessionErrorMsg ok
  · intro np cfg ok
    cases np
    · rfl
    · exact gotifyPush_response_notThrown cfg permissionMsg ok
  · intro nq tool questions cfg ok head tail
    unfold questionToolHandler
    split
    · exact gotifyPush_response_notThrown _ _ _
    · rfl

/-- C6 counterexample: with notifications enabled and a valid gotify
configuration, a network-level fetch rejection in the `permission.ask`
handler escapes the handler (there is no try/catch on that path),
contradicting the claim that no exception propagates out of any handler. -/
theorem permissionAsk_netError_counterexample :
    permissionAskHandler true ⟨"http://g".toList, "tok".toList⟩ .netError = .error () := by
  rfl

/-- C7: the session.idle handler classifies the session by its parent
identifier — `isChildSession` is true exactly when the lookup succeeded
with a non-empty parent identifier; a child session is gated by the
subagent toggle and receives the fixed subagent-completed message without
touching the `lastSent` map; a root session is gated by the completion
toggle and receives the latest-assistant-message notification. -/
theorem sessionIdle_classifies_by_parent :
    (∀ resp, isChildSession resp = true ↔
      ∃ d p, resp = .ok (some d) ∧ d.parentID = some p ∧ p ≠ []) ∧
    (∀ (ns nc : Bool) (σ : List (String × String)) (sid : String)
      (sessGet : Except Unit (Option SessionData))
      (messagesResp : Except Unit (Option (List Msg)))
      (model : Option SummarizerModel) (created : Except Unit (Option String))
      (outcome : PromptOutcome) (cfg : GotifyCfg) (fr : FetchOutcome) (head tail : Nat),
      isChildSession sessGet = true →
        sessionIdleHandler ns nc σ (some sid) sessGet messagesResp model created outcome
          cfg fr head tail =
          ⟨if ns then pushResult cfg fr subagentDoneMsg else none, σ, false⟩) ∧
    (∀ (ns nc : Bool) (σ : List (String × String)) (sid : String)
      (sessGet : Except Unit (Option SessionData))
      (messagesResp : Except Unit (Option (List Msg)))
      (model : Option SummarizerModel) (created : Except Unit (Option String))
      (outcome : PromptOutcome) (cfg : GotifyCfg) (fr : FetchOutcome) (head tail : Nat),
      isChildSession sessGet = false →
        sessionIdleHandler ns nc σ (some sid) sessGet messagesResp model created outcome
          cfg fr head tail =
          if nc then
            ⟨(sendLatestAssistant σ sid messagesResp model created outcome cfg fr
                head tail).sent,
              (sendLatestAssistant σ sid messagesResp model created outcome cfg fr
                head tail).lastSentMap, false⟩
          else ⟨none, σ, false⟩) := by
  refine ⟨?_, ?_, ?_⟩
  · intro resp
    constructor
    · intro h
      cases resp with
      | error e => simp [isChildSession] at h
      | ok data =>
        cases data with
        | none => simp [isChildSession] at h
        | some d =>
          cases hd : d.parentID with
          | none => simp [isChildSession, optStrTruthy, hd] at h
          | some p =>
            refine ⟨d, p, rfl, hd, ?_⟩
            simpa [isChildSession, optStrTruthy, hd] using h
    · rintro ⟨d, p, rfl, hd, hp⟩
      simp [isChildSession, optStrTruthy, hd, hp]
  · intro ns nc σ sid sessGet messagesResp model created outcome cfg fr head tail hchild
    cases ns with
    | true =>
      cases hp : gotifyPush cfg fr subagentDoneMsg with
      | error e => simp [sessionIdleHandler, hchild, hp, pushResult]
      | ok sent => simp [sessionIdleHandler, hchild, hp, pushResult]
    | false => simp [sessionIdleHandler, hchild]
  · intro ns nc σ sid sessGet messagesResp model created outcome cfg fr head tail hroot
    cases nc <;> simp [sessionIdleHandler, hroot]

/-- C7 witness: a lookup with parent identifier "p" is classified as a
child and, with the subagent toggle on, yields the fixed subagent message
with the map untouched. -/
theorem sessionIdle_classifies_by_parent_witness :
    isChildSession (.ok (some ⟨some "p".toList⟩)) = true ∧
    sessionIdleHandler true true [] (some "s") (.ok (some ⟨some "p".toList⟩))
        (.ok none) none (.ok none) .timeout ⟨"http://g".toList, "tok".toList⟩
        (.response true) 2 2 =
      ⟨if true then pushResult ⟨"http://g".toList, "tok".toList⟩ (.response true)
          subagentDoneMsg
        else none, [], false⟩ :=
  ⟨by decide,
    sessionIdle_classifies_by_parent.2.1 true true [] "s"
      (.ok (some ⟨some "p".toList⟩)) (.ok none) none (.ok none) .timeout
      ⟨"http://g".toList, "tok".toList⟩ (.response true) 2 2 (by decide)⟩

/-- C10: a session lookup that throws or returns no data makes
`isChildSession` return false, so the session is classified as a root
session and the session.idle handler takes the root-completion path. -/
theorem isChildSession_error_is_root :
    isChildSession (.error ()) = false ∧
    isChildSession (.ok none) = false ∧
    (∀ (ns nc : Bool) (σ : List (String × String)) (sid : String)
      (messagesResp : Except Unit (Option (List Msg)))
      (model : Option SummarizerModel) (created : Except Unit (Option String))
      (outcome : PromptOutcome) (cfg : GotifyCfg) (fr : FetchOutcome) (head tail : Nat),
      sessionIdleHandler ns nc σ (some sid) (.error ()) messagesResp model created
        outcome cfg fr head tail =
        if nc then
          ⟨(sendLatestAssistant σ sid messagesResp model created outcome cfg fr
              head tail).sent,
            (sendLatestAssistant σ sid messagesResp model created outcome cfg fr
              head tail).lastSentMap, false⟩
        else ⟨none, σ, false⟩) := by
  refine ⟨rfl, rfl, ?_⟩
  intro ns nc σ sid messagesResp model created outcome cfg fr head tail
  cases nc <;> simp [sessionIdleHandler, isChildSession]


/-- C9 witness: idempotence at head = tail = 2 on a long input. -/
theorem preview_idempotent_witness :
    1 ≤ 2 ∧
    preview (preview "  a   bb  cccc dd e  ".toList 2 2) 2 2 =
      preview "  a   bb  cccc dd e  ".toList 2 2 :=
  ⟨by decide, preview_idempotent "  a   bb  cccc dd e  ".toList 2 2 (by decide) (by decide)⟩

end GotifyNotify

/-- C8 (corrected): the installer exits 0 exactly when every step
succeeds; an empty downloaded file aborts with exit 1 and the script's
descriptive message; a failed `curl` download aborts with curl's nonzero
exit code after curl's own diagnostic (printed because of `-sS`).  On the
`wget` fallback path a failed download aborts with a nonzero code but
prints nothing (`wget -q`), see `pull_wget_silent_counterexample`. -/
theorem pull_exit_behavior :
    (∀ (env : PullSh.PullEnv) (url1 url2 : String),
      ((PullSh.runPull env url1 url2).1 = 0 ↔ PullSh.allStepsOk env)) ∧
    (∀ (env : PullSh.PullEnv) (url1 url2 : String),
      env.mkdirExit = 0 → env.fetch1.dlExit = 0 → env.fetch1.nonempty = false →
        PullSh.runPull env url1 url2 = (1, [PullSh.emptyDownloadMsg url1])) ∧
    (∀ (env : PullSh.PullEnv) (url1 url2 : String),
      env.mkdirExit = 0 → env.fetch1.dlExit = 0 → env.fetch1.nonempty = true →
      env.fetch2.dlExit = 0 → env.fetch2.nonempty = false →
        PullSh.runPull env url1 url2 = (1, [PullSh.emptyDownloadMsg url2])) ∧
    (∀ (env : PullSh.PullEnv) (url1 url2 : String),
      env.dl = .curl → env.mkdirExit = 0 → env.fetch1.dlExit ≠ 0 →
        PullSh.runPull env url1 url2 = (env.fetch1.dlExit, [env.curl1Err])) := by
  refine ⟨?_, ?_, ?_, ?_⟩
  · intro env url1 url2
    rcases env with ⟨dl, ⟨d1, n1⟩, ⟨d2, n2⟩, c1, c2, mk, i1, i2, r1, r2⟩
    by_cases hmk : mk = 0
    · subst hmk
      cases dl
      all_goals
        by_cases hd1 : d1 = 0
        · subst hd1
          cases n1 with
          | false => simp [PullSh.runPull, PullSh.fetchStep, PullSh.allStepsOk]
          | true =>
            by_cases hd2 : d2 = 0
            · subst hd2
              cases n2 with
              | false => simp [PullSh.runPull, PullSh.fetchStep, PullSh.allStepsOk]
              | true =>
                by_cases hi1 : i1 = 0 <;> by_cases hi2 : i2 = 0 <;>
                  by_cases hr1 : r1 = 0 <;> by_cases hr2 : r2 = 0 <;>
                  simp_all [PullSh.runPull, PullSh.fetchStep, PullSh.allStepsOk]
            · simp [PullSh.runPull, PullSh.fetchStep, PullSh.allStepsOk, hd2]
        · simp [PullSh.runPull, PullSh.fetchStep, PullSh.allStepsOk, hd1]
    · simp [PullSh.runPull, PullSh.allStepsOk, hmk]
  · intro env url1 url2 hmk hd1 hn1
    rcases env with ⟨dl, ⟨d1, n1⟩, ⟨d2, n2⟩, c1, c2, mk, i1, i2, r1, r2⟩
    simp only at hmk hd1 hn1
    subst hmk hd1 hn1
    cases dl <;> simp [PullSh.runPull, PullSh.fetchStep]
  · intro env url1 url2 hmk hd1 hn1 hd2 hn2
    rcases env with ⟨dl, ⟨d1, n1⟩, ⟨d2, n2⟩, c1, c2, mk, i1, i2, r1, r2⟩
    simp only at hmk hd1 hn1 hd2 hn2
    subst hmk hd1 hn1 hd2 hn2
    cases dl <;> simp [PullSh.runPull, PullSh.fetchStep]
  · intro env url1 url2 hdl hmk hd1
    rcases env with ⟨dl, ⟨d1, n1⟩, ⟨d2, n2⟩, c1, c2, mk, i1, i2, r1, r2⟩
    simp only at hdl hmk hd1
    subst hdl hmk
    simp [PullSh.runPull, PullSh.fetchStep, hd1]

/-- C8 counterexample: on the wget fallback path a failed download (wget
exit code 4) terminates the installer with a nonzero exit but prints no
message at all, because `wget -q` is silent and `set -e` aborts before the
script's own diagnostic. -/
theorem pull_wget_silent_counterexample :
    (PullSh.runPull ⟨.wget, ⟨4, false⟩, ⟨0, true⟩, "", "", 0, 0, 0, 0, 0⟩ "u1" "u2").1 ≠ 0 ∧
    (PullSh.runPull ⟨.wget, ⟨4, false⟩, ⟨0, true⟩, "", "", 0, 0, 0, 0, 0⟩ "u1" "u2").2 = [] := by
  decide

/-- C8 witness: a run whose first download is empty exits 1 with the
script's message, and a fully successful run exits 0. -/
theorem pull_exit_behavior_witness :
    PullSh.runPull ⟨.curl, ⟨0, false⟩, ⟨0, true⟩, "e1", "e2", 0, 0, 0, 0, 0⟩ "u1" "u2" =
      (1, [PullSh.emptyDownloadMsg "u1"]) ∧
    ((PullSh.runPull ⟨.curl, ⟨0, true⟩, ⟨0, true⟩, "e1", "e2", 0, 0, 0, 0, 0⟩ "u1" "u2").1 = 0 ↔
      PullSh.allStepsOk ⟨.curl, ⟨0, true⟩, ⟨0, true⟩, "e1", "e2", 0, 0, 0, 0, 0⟩) :=
  ⟨pull_exit_behavior.2.1 ⟨.curl, ⟨0, false⟩, ⟨0, true⟩, "e1", "e2", 0, 0, 0, 0, 0⟩
      "u1" "u2" rfl rfl rfl,
    pull_exit_behavior.1 ⟨.curl, ⟨0, true⟩, ⟨0, true⟩, "e1", "e2", 0, 0, 0, 0, 0⟩ "u1" "u2"⟩
